import Mathlib

set_option maxRecDepth 8192

/-!
Shallow embedding of the minority-class oversampling engine of
`src/utils/smote_variants.py` (classes `SMOBDSmote`, `GSmote`, function
`get_smote_variant`), together with proofs of the specification claims.

Modelling conventions:
* numpy float64 vectors are modelled as `List ℚ` (exact arithmetic);
  elementwise numpy expressions become `List.zipWith`.
* labels are `ℤ`; `np.unique(y, return_counts=True)` becomes the sorted
  deduplicated list of labels plus per-label counts, and `np.argmin` /
  `np.argmax` return the first index attaining the extremum, as numpy does.
* the global numpy random generator is modelled as an oracle stream of
  per-iteration draws passed to `fit_resample` explicitly: the code reads
  `np.random.*` (ambient global state), so the stream is an input that is
  NOT derived from `random_state`.  A draw of `np.random.choice(lst)` is
  modelled as an oracle position reduced `% lst.length`, which captures
  exactly "some element of the list"; `np.random.random()` is an oracle
  rational (validity `0 ≤ u < 1` is a hypothesis where a claim needs it).
* the sklearn `NearestNeighbors` index is an external collaborator; its
  answer `indices` (one list of `k_neighbors + 1` global indices per
  minority row) is passed as a parameter, as is the external plain-SMOTE
  collaborator used by SMOBD's fallback.
* Python exceptions of the registry become `Except String`.
-/

/-- Feature vector: one row of the numpy matrix `X`. -/
abbrev Vec := List ℚ

/-- `sample + alpha * (neighbor - sample)`, numpy elementwise arithmetic. -/
def synthVec (sample neighbor : Vec) (alpha : ℚ) : Vec :=
  List.zipWith (fun s nb => s + alpha * (nb - s)) sample neighbor

/-- Insertion of a label into a sorted list (helper for the `np.unique` model). -/
def insertSorted (a : ℤ) : List ℤ → List ℤ
  | [] => [a]
  | b :: bs => if a ≤ b then a :: b :: bs else b :: insertSorted a bs

/-- Insertion sort on labels (helper for the `np.unique` model). -/
def sortInts : List ℤ → List ℤ
  | [] => []
  | a :: as => insertSorted a (sortInts as)

/-- `np.unique(y)`: the distinct label values in increasing order. -/
def classesOf (y : List ℤ) : List ℤ :=
  (sortInts y).dedup

/-- The `return_counts=True` part of `np.unique`: occurrence count of each
distinct label, aligned with `classesOf`. -/
def classCounts (y : List ℤ) : List ℕ :=
  (classesOf y).map (fun c => y.count c)

/-- `np.argmin` on a list: index of the first occurrence of the minimum
(`0` on the empty list, which numpy would reject). -/
def argminAux (best : ℕ) (bestIdx : ℕ) (i : ℕ) : List ℕ → ℕ
  | [] => bestIdx
  | a :: as => if a < best then argminAux a i (i + 1) as else argminAux best bestIdx (i + 1) as

def argminL : List ℕ → ℕ
  | [] => 0
  | a :: as => argminAux a 0 1 as

/-- `np.argmax` on a list: index of the first occurrence of the maximum. -/
def argmaxAux (best : ℕ) (bestIdx : ℕ) (i : ℕ) : List ℕ → ℕ
  | [] => bestIdx
  | a :: as => if best < a then argmaxAux a i (i + 1) as else argmaxAux best bestIdx (i + 1) as

def argmaxL : List ℕ → ℕ
  | [] => 0
  | a :: as => argmaxAux a 0 1 as

/-- `unique_classes[np.argmin(class_counts)]`. -/
def minorityClass (y : List ℤ) : ℤ :=
  (classesOf y).getD (argminL (classCounts y)) 0

/-- `unique_classes[np.argmax(class_counts)]`. -/
def majorityClass (y : List ℤ) : ℤ :=
  (classesOf y).getD (argmaxL (classCounts y)) 0

/-- `np.where(y == c)[0]`: positions of label `c` in `y`, in order. -/
def whereEq (y : List ℤ) (c : ℤ) : List ℕ :=
  (List.range y.length).filter (fun i => y.getD i 0 == c)

/-- Configuration of `GSmote.__init__` with the source defaults. -/
structure GSmoteCfg where
  k_neighbors : ℕ := 5
  selection_strategy : String := "combined"
  truncation_factor : ℚ := 1
  random_state : ℤ := 42

/-- One iteration's reads of the global numpy generator in `GSmote.fit_resample`:
`np.random.randint(0, n_minority)`, `np.random.choice(valid_neighbors)`
(modelled as a position into that list) and `np.random.random()`. -/
structure GDraw where
  seedIdx : ℕ
  nbrChoice : ℕ
  u : ℚ

/-- The truncation clamp of `GSmote.fit_resample`:
`alpha = max(alpha, -tf)` when negative, else `alpha = min(alpha, tf)`. -/
def truncClamp (tf : ℚ) (alpha : ℚ) : ℚ :=
  if alpha < 0 then max alpha (-tf) else min alpha tf

/-- The `valid_neighbors` list comprehensions of `GSmote.fit_resample`:
positions into the neighbor tail, filtered by the selection strategy. -/
def validNeighborsG (y : List ℤ) (mino : ℤ) (strat : String) (tail : List ℕ) : List ℕ :=
  if strat = "minority" then
    (tail.enum.filter (fun p => y.getD p.2 0 == mino)).map Prod.fst
  else if strat = "majority" then
    (tail.enum.filter (fun p => !(y.getD p.2 0 == mino))).map Prod.fst
  else
    List.range tail.length

/-- The body of one iteration of the synthesis loop of `GSmote.fit_resample`:
`none` models the `continue` on an empty `valid_neighbors`. -/
def gsmoteSynthOne (X : List Vec) (y : List ℤ) (mino : ℤ) (Xmin : List Vec)
    (nbrs : List (List ℕ)) (strat : String) (tf : ℚ) (d : GDraw) : Option Vec :=
  let idx := d.seedIdx % Xmin.length
  let sample := Xmin.getD idx []
  let tail := (nbrs.getD idx []).tail
  let valid := validNeighborsG y mino strat tail
  if valid = [] then none
  else
    let neighborIdx := valid.getD (d.nbrChoice % valid.length) 0
    let neighbor := X.getD (tail.getD neighborIdx 0) []
    let alpha := truncClamp tf (d.u * 2 - 1)
    some (synthVec sample neighbor alpha)

/-- `GSmote.fit_resample`.  `nbrs` is the external NearestNeighbors answer
(`indices`: one list of `k_neighbors + 1` global indices per minority row);
`r` is the ambient global numpy generator, one `GDraw` per loop iteration. -/
def gsmoteFitResample (cfg : GSmoteCfg) (nbrs : List (List ℕ))
    (X : List Vec) (y : List ℤ) (r : ℕ → GDraw) : List Vec × List ℤ :=
  let mino := minorityClass y
  let Xmin := (whereEq y mino).map (fun i => X.getD i [])
  let nMinority : ℕ := Xmin.length
  let nMajority : ℤ := (y.length : ℤ) - nMinority
  let nSamples : ℤ := nMajority - nMinority
  if nSamples ≤ 0 then (X, y)
  else
    let synths := (List.range nSamples.toNat).filterMap
      (fun t => gsmoteSynthOne X y mino Xmin nbrs cfg.selection_strategy
        cfg.truncation_factor (r t))
    if synths.isEmpty then (X, y)
    else (X ++ synths, y ++ List.replicate synths.length mino)

/-- Configuration of `SMOBDSmote.__init__` with the source defaults. -/
structure SmobdCfg where
  k_neighbors : ℕ := 5
  random_state : ℤ := 42

/-- One iteration's reads of the global numpy generator in
`SMOBDSmote.fit_resample`: `np.random.choice(len(X_borderline), p=densities)`
(modelled as an oracle index reduced mod the list length, which
over-approximates the weighted draw's support),
`np.random.choice(nn_minority_idx)` and `np.random.random()`. -/
structure SDraw where
  bIdx : ℕ
  nbrChoice : ℕ
  alpha : ℚ

/-- Borderline test of `SMOBDSmote.fit_resample` for one minority row:
count the majority-labelled entries of `idx_array[1:]` and compare with
`self.k_neighbors / 2` (Python 3 float division, hence exact `ℚ` division). -/
def isBorderline (y : List ℤ) (majo : ℤ) (k : ℕ) (idx_array : List ℕ) : Bool :=
  let majority_count := (idx_array.tail.filter (fun j => y.getD j 0 == majo)).length
  decide ((majority_count : ℚ) > (k : ℚ) / 2)

/-- The `borderline_indices` list of `SMOBDSmote.fit_resample`: positions `i`
of the minority rows (one neighbor list per row of `indices`) that pass the
borderline test. -/
def borderlineIndicesOf (y : List ℤ) (majo : ℤ) (k : ℕ) (nbrs : List (List ℕ)) : List ℕ :=
  (List.range nbrs.length).filter (fun i => isBorderline y majo k (nbrs.getD i []))

/-- `np.mean` of a rational list. -/
def listMean (l : List ℚ) : ℚ := l.sum / l.length

/-- The raw densities of `SMOBDSmote.fit_resample`:
`1.0 / (avg_distance + 1e-10)` per borderline sample. -/
def smobdDensitiesRaw (dists : List (List ℚ)) (borderline : List ℕ) : List ℚ :=
  borderline.map (fun bi => 1 / (listMean ((dists.getD bi []).tail) + 1 / 10000000000))

/-- The normalised densities of `SMOBDSmote.fit_resample`: divide by the total
when positive, otherwise the uniform distribution.  (They only shape the
weighted borderline draw, which the oracle model over-approximates, so the
synthesis semantics below does not consume them.) -/
def smobdDensities (dists : List (List ℚ)) (borderline : List ℕ) : List ℚ :=
  let raw := smobdDensitiesRaw dists borderline
  let total := raw.sum
  if total > 0 then raw.map (fun d => d / total)
  else List.replicate raw.length (1 / (raw.length : ℚ))

/-- The body of one iteration of the synthesis loop of
`SMOBDSmote.fit_resample`: `none` models the `continue` on an empty
`nn_minority_idx`. -/
def smobdSynthOne (X : List Vec) (y : List ℤ) (mino : ℤ) (Xborderline : List Vec)
    (borderline : List ℕ) (nbrs : List (List ℕ)) (d : SDraw) : Option Vec :=
  let idx := d.bIdx % Xborderline.length
  let sample := Xborderline.getD idx []
  let nn_idx := (nbrs.getD (borderline.getD idx 0) []).tail
  let nn_minority_idx := nn_idx.filter (fun i => y.getD i 0 == mino)
  if nn_minority_idx = [] then none
  else
    let neighbor_idx := nn_minority_idx.getD (d.nbrChoice % nn_minority_idx.length) 0
    let neighbor := X.getD neighbor_idx []
    some (synthVec sample neighbor d.alpha)

/-- `SMOBDSmote.fit_resample`.  `nbrs`/`dists` are the external
NearestNeighbors answer for the minority rows (`indices` and `distances`);
`smote` is the external plain-SMOTE collaborator used by the fallback,
receiving `self.random_state`; `r` is the ambient global numpy generator. -/
def smobdFitResample (cfg : SmobdCfg) (nbrs : List (List ℕ)) (dists : List (List ℚ))
    (smote : ℤ → List Vec → List ℤ → List Vec × List ℤ)
    (X : List Vec) (y : List ℤ) (r : ℕ → SDraw) : List Vec × List ℤ :=
  let mino := minorityClass y
  let majo := majorityClass y
  let minority_indices := whereEq y mino
  let majority_indices := whereEq y majo
  let Xminority := minority_indices.map (fun i => X.getD i [])
  let Xmajority := majority_indices.map (fun i => X.getD i [])
  let borderline_indices := borderlineIndicesOf y majo cfg.k_neighbors nbrs
  if borderline_indices = [] then smote cfg.random_state X y
  else
    let Xborderline := borderline_indices.map (fun i => Xminority.getD i [])
    let _densities := smobdDensities dists borderline_indices
    let nSamples : ℤ := (Xmajority.length : ℤ) - (Xminority.length : ℤ)
    let synths := (List.range nSamples.toNat).filterMap
      (fun t => smobdSynthOne X y mino Xborderline borderline_indices nbrs (r t))
    if synths.isEmpty then (X, y)
    else (X ++ synths, y ++ List.replicate synths.length mino)

/-- The values of the `variants` dictionary of `get_smote_variant`: the five
external standard oversamplers are opaque tagged collaborators, the two
bespoke ones carry their configuration. -/
inductive SmoteVariant where
  | smote (random_state : ℤ)
  | borderlineSmote (random_state : ℤ)
  | svmSmote (random_state : ℤ)
  | adasyn (random_state : ℤ)
  | smoteTomek (random_state : ℤ)
  | smobdSmote (cfg : SmobdCfg)
  | gSmote (cfg : GSmoteCfg)

/-- The `variants` dictionary of `get_smote_variant`, in insertion order. -/
def variantsTable (random_state : ℤ) : List (String × SmoteVariant) :=
  [("smote", .smote random_state),
   ("borderline_smote", .borderlineSmote random_state),
   ("svm_smote", .svmSmote random_state),
   ("adasyn", .adasyn random_state),
   ("smote_tomek", .smoteTomek random_state),
   ("smobd_smote", .smobdSmote { random_state := random_state }),
   ("g_smote", .gSmote { random_state := random_state })]

/-- Python `str.lower()` (on the ASCII variant names): lowercase every
character.  (Defined structurally over the character list so that concrete
instances evaluate in the kernel.) -/
def pyLower (s : String) : String := ⟨s.data.map Char.toLower⟩

/-- `list(variants.keys())` as Python renders it inside the f-string. -/
def variantKeysRendered : String :=
  "['smote', 'borderline_smote', 'svm_smote', 'adasyn', 'smote_tomek', 'smobd_smote', 'g_smote']"

/-- `get_smote_variant`: dictionary lookup on `variant_name.lower()`, raising
`ValueError` (modelled as `Except.error`) with the message of the source when
the name is unknown. -/
def get_smote_variant (variant_name : String) (random_state : ℤ) : Except String SmoteVariant :=
  match (variantsTable random_state).lookup (pyLower variant_name) with
  | none => Except.error ("Unknown SMOTE variant: " ++ variant_name ++
      ". Available variants: " ++ variantKeysRendered)
  | some v => Except.ok v

/-- The names recognized by `get_smote_variant` (the dictionary keys). -/
def recognizedNames : List String :=
  ["smote", "borderline_smote", "svm_smote", "adasyn", "smote_tomek", "smobd_smote", "g_smote"]

/-- The sequence of synthetic vectors `GSmote.fit_resample` collects in
`synthetic_samples` (empty when the early-return guard fires). -/
def gsmoteSynths (cfg : GSmoteCfg) (nbrs : List (List ℕ))
    (X : List Vec) (y : List ℤ) (r : ℕ → GDraw) : List Vec :=
  let mino := minorityClass y
  let Xmin := (whereEq y mino).map (fun i => X.getD i [])
  let nMinority : ℕ := Xmin.length
  let nMajority : ℤ := (y.length : ℤ) - nMinority
  let nSamples : ℤ := nMajority - nMinority
  if nSamples ≤ 0 then []
  else
    (List.range nSamples.toNat).filterMap
      (fun t => gsmoteSynthOne X y mino Xmin nbrs cfg.selection_strategy
        cfg.truncation_factor (r t))

/-- The sequence of synthetic vectors `SMOBDSmote.fit_resample` collects in
`synthetic_samples` on the non-fallback path. -/
def smobdSynths (cfg : SmobdCfg) (nbrs : List (List ℕ))
    (X : List Vec) (y : List ℤ) (r : ℕ → SDraw) : List Vec :=
  let mino := minorityClass y
  let majo := majorityClass y
  let minority_indices := whereEq y mino
  let majority_indices := whereEq y majo
  let Xminority := minority_indices.map (fun i => X.getD i [])
  let Xmajority := majority_indices.map (fun i => X.getD i [])
  let borderline_indices := borderlineIndicesOf y majo cfg.k_neighbors nbrs
  let Xborderline := borderline_indices.map (fun i => Xminority.getD i [])
  let nSamples : ℤ := (Xmajority.length : ℤ) - (Xminority.length : ℤ)
  (List.range nSamples.toNat).filterMap
    (fun t => smobdSynthOne X y mino Xborderline borderline_indices nbrs (r t))

lemma mem_insertSorted {a b : ℤ} {l : List ℤ} :
    b ∈ insertSorted a l ↔ b = a ∨ b ∈ l := by
  induction l with
  | nil => simp [insertSorted]
  | cons c cs ih =>
      by_cases h : a ≤ c
      · simp [insertSorted, h]
      · simp [insertSorted, h, ih]
        tauto

lemma mem_sortInts {b : ℤ} {l : List ℤ} : b ∈ sortInts l ↔ b ∈ l := by
  induction l with
  | nil => simp [sortInts]
  | cons c cs ih => simp [sortInts, mem_insertSorted, ih]

lemma mem_classesOf {b : ℤ} {y : List ℤ} : b ∈ classesOf y ↔ b ∈ y := by
  simp [classesOf, List.mem_dedup, mem_sortInts]

lemma nodup_classesOf (y : List ℤ) : (classesOf y).Nodup :=
  List.nodup_dedup _

lemma length_whereEq (y : List ℤ) (c : ℤ) : (whereEq y c).length = y.count c := by
  unfold whereEq
  induction y with
  | nil => simp
  | cons a as ih =>
      rw [List.length_cons, List.range_succ_eq_map, List.filter_cons, List.filter_map]
      have h2 : (fun i => (a :: as).getD i 0 == c) ∘ Nat.succ
          = fun i => as.getD i 0 == c := rfl
      rw [h2]
      simp only [List.getD_eq_getElem?_getD] at ih
      by_cases h : a = c <;>
        simp [h, ih, List.count_cons]

lemma mem_whereEq {y : List ℤ} {c : ℤ} {i : ℕ} (h : i ∈ whereEq y c) :
    i < y.length ∧ y.getD i 0 = c := by
  unfold whereEq at h
  rw [List.mem_filter, List.mem_range] at h
  exact ⟨h.1, by simpa using h.2⟩

lemma two_class_ne {y : List ℤ} {a b : ℤ} (hab : classesOf y = [a, b]) : a ≠ b := by
  have h := nodup_classesOf y
  rw [hab] at h
  simp [List.nodup_cons] at h
  exact h

lemma two_class_mem {y : List ℤ} {a b : ℤ} (hab : classesOf y = [a, b]) :
    ∀ c ∈ y, c = a ∨ c = b := by
  intro c hc
  have : c ∈ classesOf y := mem_classesOf.mpr hc
  rw [hab] at this
  simpa using this

lemma count_two_of_mem {l : List ℤ} {a b : ℤ} (hne : a ≠ b)
    (h : ∀ c ∈ l, c = a ∨ c = b) : l.length = l.count a + l.count b := by
  induction l with
  | nil => simp
  | cons c cs ih =>
      have hcs : ∀ x ∈ cs, x = a ∨ x = b := fun x hx => h x (List.mem_cons_of_mem _ hx)
      rcases h c (List.mem_cons_self _ _) with rfl | rfl <;>
        simp [List.count_cons, ih hcs, hne, Ne.symm hne] <;> omega

lemma two_class_length {y : List ℤ} {a b : ℤ} (hab : classesOf y = [a, b]) :
    y.length = y.count a + y.count b :=
  count_two_of_mem (two_class_ne hab) (two_class_mem hab)

lemma classCounts_two {y : List ℤ} {a b : ℤ} (hab : classesOf y = [a, b]) :
    classCounts y = [y.count a, y.count b] := by
  simp [classCounts, hab]

lemma minorityClass_two {y : List ℤ} {a b : ℤ} (hab : classesOf y = [a, b]) :
    minorityClass y = if y.count b < y.count a then b else a := by
  rw [minorityClass, classCounts_two hab, hab]
  by_cases h : y.count b < y.count a <;>
    simp [argminL, argminAux, h]

lemma majorityClass_two {y : List ℤ} {a b : ℤ} (hab : classesOf y = [a, b]) :
    majorityClass y = if y.count a < y.count b then b else a := by
  rw [majorityClass, classCounts_two hab, hab]
  by_cases h : y.count a < y.count b <;>
    simp [argmaxL, argmaxAux, h]

lemma two_class_count_le {y : List ℤ} {a b : ℤ} (hab : classesOf y = [a, b]) :
    y.count (minorityClass y) ≤ y.count (majorityClass y) := by
  rw [minorityClass_two hab, majorityClass_two hab]
  by_cases h1 : y.count b < y.count a <;> by_cases h2 : y.count a < y.count b <;>
    simp [h1, h2] <;> omega

lemma two_class_count_sum {y : List ℤ} {a b : ℤ} (hab : classesOf y = [a, b]) :
    y.length = y.count (minorityClass y) + y.count (majorityClass y) := by
  rw [minorityClass_two hab, majorityClass_two hab, two_class_length hab]
  by_cases h1 : y.count b < y.count a <;> by_cases h2 : y.count a < y.count b <;>
    simp [h1, h2] <;> omega

lemma gsmoteFitResample_eq (cfg : GSmoteCfg) (nbrs : List (List ℕ))
    (X : List Vec) (y : List ℤ) (r : ℕ → GDraw) :
    gsmoteFitResample cfg nbrs X y r
      = (X ++ gsmoteSynths cfg nbrs X y r,
         y ++ List.replicate (gsmoteSynths cfg nbrs X y r).length (minorityClass y)) := by
  simp only [gsmoteFitResample, gsmoteSynths]
  split_ifs with h1 h2
  · simp
  · rw [List.isEmpty_iff] at h2
    rw [h2]
    simp
  · rfl

lemma smobdFitResample_eq (cfg : SmobdCfg) (nbrs : List (List ℕ)) (dists : List (List ℚ))
    (smote : ℤ → List Vec → List ℤ → List Vec × List ℤ)
    (X : List Vec) (y : List ℤ) (r : ℕ → SDraw)
    (hbl : borderlineIndicesOf y (majorityClass y) cfg.k_neighbors nbrs ≠ []) :
    smobdFitResample cfg nbrs dists smote X y r
      = (X ++ smobdSynths cfg nbrs X y r,
         y ++ List.replicate (smobdSynths cfg nbrs X y r).length (minorityClass y)) := by
  simp only [smobdFitResample, smobdSynths]
  split_ifs with h1 h2
  · exact absurd h1 hbl
  · rw [List.isEmpty_iff] at h2
    rw [h2]
    simp
  · rfl

lemma getD_mem_of_lt {α : Type _} {l : List α} {n : ℕ} {d : α} (h : n < l.length) :
    l.getD n d ∈ l := by
  rw [List.getD_eq_getElem l d h]
  exact List.getElem_mem h

lemma mem_of_mem_tail {α : Type _} {l : List α} {a : α} (h : a ∈ l.tail) : a ∈ l := by
  cases l with
  | nil => simp at h
  | cons b bs => exact List.mem_cons_of_mem b h

lemma argminAux_lt (as : List ℕ) :
    ∀ best bestIdx i, bestIdx < i → argminAux best bestIdx i as < i + as.length := by
  induction as with
  | nil =>
      intro best bestIdx i h
      simpa [argminAux] using h
  | cons a as ih =>
      intro best bestIdx i h
      simp only [argminAux]
      split_ifs with hcmp
      · have h2 := ih a i (i + 1) (Nat.lt_succ_self i)
        simp only [List.length_cons]
        omega
      · have h2 := ih best bestIdx (i + 1) (Nat.lt_succ_of_lt h)
        simp only [List.length_cons]
        omega

lemma argmaxAux_lt (as : List ℕ) :
    ∀ best bestIdx i, bestIdx < i → argmaxAux best bestIdx i as < i + as.length := by
  induction as with
  | nil =>
      intro best bestIdx i h
      simpa [argmaxAux] using h
  | cons a as ih =>
      intro best bestIdx i h
      simp only [argmaxAux]
      split_ifs with hcmp
      · have h2 := ih a i (i + 1) (Nat.lt_succ_self i)
        simp only [List.length_cons]
        omega
      · have h2 := ih best bestIdx (i + 1) (Nat.lt_succ_of_lt h)
        simp only [List.length_cons]
        omega

lemma argminL_lt {l : List ℕ} (h : l ≠ []) : argminL l < l.length := by
  cases l with
  | nil => exact absurd rfl h
  | cons a as =>
      have h2 := argminAux_lt as a 0 1 Nat.one_pos
      simp only [argminL, List.length_cons]
      omega

lemma argmaxL_lt {l : List ℕ} (h : l ≠ []) : argmaxL l < l.length := by
  cases l with
  | nil => exact absurd rfl h
  | cons a as =>
      have h2 := argmaxAux_lt as a 0 1 Nat.one_pos
      simp only [argmaxL, List.length_cons]
      omega

lemma classesOf_ne_nil {y : List ℤ} (hy : y ≠ []) : classesOf y ≠ [] := by
  cases y with
  | nil => exact absurd rfl hy
  | cons a as =>
      intro h
      have : a ∈ classesOf (a :: as) := mem_classesOf.mpr (List.mem_cons_self a as)
      rw [h] at this
      simp at this

lemma length_classCounts (y : List ℤ) : (classCounts y).length = (classesOf y).length := by
  simp [classCounts]

lemma minorityClass_mem {y : List ℤ} (hy : y ≠ []) : minorityClass y ∈ y := by
  have h1 : classCounts y ≠ [] := by
    intro h
    have := length_classCounts y
    rw [h] at this
    exact classesOf_ne_nil hy (List.length_eq_zero.mp this.symm)
  have h2 : argminL (classCounts y) < (classesOf y).length := by
    have := argminL_lt h1
    rwa [length_classCounts] at this
  exact mem_classesOf.mp (getD_mem_of_lt h2)

lemma majorityClass_mem {y : List ℤ} (hy : y ≠ []) : majorityClass y ∈ y := by
  have h1 : classCounts y ≠ [] := by
    intro h
    have := length_classCounts y
    rw [h] at this
    exact classesOf_ne_nil hy (List.length_eq_zero.mp this.symm)
  have h2 : argmaxL (classCounts y) < (classesOf y).length := by
    have := argmaxL_lt h1
    rwa [length_classCounts] at this
  exact mem_classesOf.mp (getD_mem_of_lt h2)

lemma count_minorityClass_pos {y : List ℤ} (hy : y ≠ []) :
    0 < y.count (minorityClass y) :=
  List.count_pos_iff.mpr (minorityClass_mem hy)

lemma validNeighborsG_lt {y : List ℤ} {mino : ℤ} {strat : String} {tl : List ℕ} :
    ∀ p ∈ validNeighborsG y mino strat tl, p < tl.length := by
  intro p hp
  unfold validNeighborsG at hp
  split_ifs at hp
  · rw [List.mem_map] at hp
    obtain ⟨q, hq, rfl⟩ := hp
    rw [List.mem_filter] at hq
    have := List.mem_enum_iff_getElem?.mp hq.1
    exact List.getElem?_eq_some.mp this |>.1
  · rw [List.mem_map] at hp
    obtain ⟨q, hq, rfl⟩ := hp
    rw [List.mem_filter] at hq
    have := List.mem_enum_iff_getElem?.mp hq.1
    exact List.getElem?_eq_some.mp this |>.1
  · exact List.mem_range.mp hp

lemma truncClamp_abs_le {tf alphaRaw : ℚ} (htf : 0 ≤ tf) :
    |truncClamp tf alphaRaw| ≤ tf := by
  rw [abs_le]
  unfold truncClamp
  split_ifs with h
  · constructor
    · exact le_max_right _ _
    · exact max_le (le_of_lt (lt_of_lt_of_le h htf)) (neg_le_self htf)
  · constructor
    · exact le_trans (neg_nonpos_of_nonneg htf) (le_min (not_lt.mp h) htf)
    · exact min_le_right _ _

lemma synthVec_between {sample neighbor : Vec} {alpha : ℚ}
    (h0 : 0 ≤ alpha) (h1 : alpha ≤ 1) :
    ∀ i, i < (synthVec sample neighbor alpha).length →
      min (sample.getD i 0) (neighbor.getD i 0) ≤ (synthVec sample neighbor alpha).getD i 0 ∧
      (synthVec sample neighbor alpha).getD i 0 ≤ max (sample.getD i 0) (neighbor.getD i 0) := by
  intro i hi
  have hlen := hi
  simp only [synthVec, List.length_zipWith, lt_min_iff] at hlen
  have hs : sample.getD i 0 = sample[i] := List.getD_eq_getElem _ _ hlen.1
  have hn : neighbor.getD i 0 = neighbor[i] := List.getD_eq_getElem _ _ hlen.2
  have hv : (synthVec sample neighbor alpha).getD i 0
      = sample[i] + alpha * (neighbor[i] - sample[i]) := by
    rw [List.getD_eq_getElem _ _ hi]
    simp only [synthVec, List.getElem_zipWith]
  rw [hs, hn, hv]
  rcases le_total (sample[i] : ℚ) neighbor[i] with hc | hc
  · rw [min_eq_left hc, max_eq_right hc]
    constructor <;> nlinarith
  · rw [min_eq_right hc, max_eq_left hc]
    constructor <;> nlinarith

lemma gsmoteSynthOne_spec {X : List Vec} {y : List ℤ} {mino : ℤ} {Xmin : List Vec}
    {nbrs : List (List ℕ)} {strat : String} {tf : ℚ} {d : GDraw} {v : Vec}
    (hXmin : Xmin ≠ []) (hsub : ∀ w ∈ Xmin, w ∈ X)
    (hnn : ∀ l ∈ nbrs, ∀ j ∈ l, j < X.length)
    (h : gsmoteSynthOne X y mino Xmin nbrs strat tf d = some v) :
    ∃ sample neighbor, sample ∈ X ∧ neighbor ∈ X ∧
      v = synthVec sample neighbor (truncClamp tf (d.u * 2 - 1)) := by
  simp only [gsmoteSynthOne] at h
  split_ifs at h with hvalid
  simp only [Option.some.injEq] at h
  have hXlen : 0 < Xmin.length := List.length_pos.mpr hXmin
  set idx := d.seedIdx % Xmin.length with hidx
  have hidxlt : idx < Xmin.length := Nat.mod_lt _ hXlen
  have hsample : Xmin.getD idx [] ∈ X := hsub _ (getD_mem_of_lt hidxlt)
  set tl := (nbrs.getD idx []).tail with htl
  set valid := validNeighborsG y mino strat tl with hvaliddef
  have hvlen : 0 < valid.length := List.length_pos.mpr hvalid
  have hpos : valid.getD (d.nbrChoice % valid.length) 0 ∈ valid :=
    getD_mem_of_lt (Nat.mod_lt _ hvlen)
  have hposlt : valid.getD (d.nbrChoice % valid.length) 0 < tl.length :=
    validNeighborsG_lt _ hpos
  have htlne : tl ≠ [] := by
    intro hemp
    rw [hemp] at hposlt
    simp at hposlt
  have hrow : nbrs.getD idx [] ∈ nbrs := by
    rcases Nat.lt_or_ge idx nbrs.length with hlt | hge
    · exact getD_mem_of_lt hlt
    · exfalso
      apply htlne
      rw [htl, List.getD_eq_default _ _ hge]
      rfl
  have hnb : tl.getD (valid.getD (d.nbrChoice % valid.length) 0) 0 ∈ tl :=
    getD_mem_of_lt hposlt
  have hnbidx : tl.getD (valid.getD (d.nbrChoice % valid.length) 0) 0 < X.length :=
    hnn _ hrow _ (mem_of_mem_tail hnb)
  refine ⟨Xmin.getD idx [], X.getD (tl.getD (valid.getD (d.nbrChoice % valid.length) 0) 0) [],
    hsample, getD_mem_of_lt hnbidx, h.symm⟩

lemma smobdSynthOne_spec {X : List Vec} {y : List ℤ} {mino : ℤ} {XB : List Vec}
    {borderline : List ℕ} {nbrs : List (List ℕ)} {d : SDraw} {v : Vec}
    (hXB : XB ≠ []) (hsub : ∀ w ∈ XB, w ∈ X)
    (hnn : ∀ l ∈ nbrs, ∀ j ∈ l, j < X.length)
    (h : smobdSynthOne X y mino XB borderline nbrs d = some v) :
    ∃ sample neighbor, sample ∈ X ∧ neighbor ∈ X ∧
      v = synthVec sample neighbor d.alpha := by
  simp only [smobdSynthOne] at h
  split_ifs at h with hvalid
  simp only [Option.some.injEq] at h
  have hXlen : 0 < XB.length := List.length_pos.mpr hXB
  set idx := d.bIdx % XB.length with hidx
  have hidxlt : idx < XB.length := Nat.mod_lt _ hXlen
  have hsample : XB.getD idx [] ∈ X := hsub _ (getD_mem_of_lt hidxlt)
  set row := nbrs.getD (borderline.getD idx 0) [] with hrowdef
  set nnm := row.tail.filter (fun i => y.getD i 0 == mino) with hnnm
  have hnnlen : 0 < nnm.length := List.length_pos.mpr hvalid
  have hpick : nnm.getD (d.nbrChoice % nnm.length) 0 ∈ nnm :=
    getD_mem_of_lt (Nat.mod_lt _ hnnlen)
  have hintail : nnm.getD (d.nbrChoice % nnm.length) 0 ∈ row.tail :=
    List.mem_of_mem_filter hpick
  have hrowne : row ≠ [] := by
    intro hemp
    rw [hemp] at hintail
    simp at hintail
  have hrow : row ∈ nbrs := by
    rcases Nat.lt_or_ge (borderline.getD idx 0) nbrs.length with hlt | hge
    · exact getD_mem_of_lt hlt
    · exact absurd (by rw [hrowdef, List.getD_eq_default _ _ hge]) hrowne
  have hnbidx : nnm.getD (d.nbrChoice % nnm.length) 0 < X.length :=
    hnn _ hrow _ (mem_of_mem_tail hintail)
  refine ⟨XB.getD idx [], X.getD (nnm.getD (d.nbrChoice % nnm.length) 0) [],
    hsample, getD_mem_of_lt hnbidx, h.symm⟩

/-- Concrete five-point dataset (three majority-0 rows, two minority-1 rows)
used to instantiate the theorems at explicit inputs. -/
def XW : List Vec := [[0], [0], [0], [10], [11]]

def yW : List ℤ := [0, 0, 0, 1, 1]

/-- A NearestNeighbors answer for the two minority rows of `XW` with
`k_neighbors = 3` (self first, then three true neighbors). -/
def nbrsW : List (List ℕ) := [[3, 4, 2, 1], [4, 3, 2, 1]]

def distsW : List (List ℚ) := [[0, 1, 9, 10], [0, 1, 10, 11]]

/-- A NearestNeighbors answer for the two minority rows of `XW` with
`k_neighbors = 2` whose true neighbors are mostly minority, so that no row
is borderline. -/
def nbrsW2 : List (List ℕ) := [[3, 4, 0], [4, 3, 0]]

/-- An external plain-SMOTE collaborator used for instantiation: the identity
resampler (it trivially satisfies the shared output contract). -/
def smoteIdW : ℤ → List Vec → List ℤ → List Vec × List ℤ := fun _ X y => (X, y)

/-- An external plain-SMOTE collaborator with a visible effect, used to check
that the fallback returns exactly the collaborator's output. -/
def smoteStubW : ℤ → List Vec → List ℤ → List Vec × List ℤ :=
  fun _ X y => (X ++ [[99]], y ++ [1])

/-- A state of the ambient global numpy generator for SMOBD draws. -/
def rSW : ℕ → SDraw := fun _ => ⟨0, 0, 1/2⟩

/-- A state of the ambient global numpy generator for G-SMOTE draws. -/
def rGW : ℕ → GDraw := fun _ => ⟨0, 0, 0⟩

/-- Balanced four-point dataset (tie: both classes have two rows) with a
NearestNeighbors answer for `k_neighbors = 1` whose rows are borderline. -/
def XW4 : List Vec := [[0], [1], [2], [3]]

def yW4 : List ℤ := [0, 0, 1, 1]

def nbrsW4 : List (List ℕ) := [[0, 1], [1, 0]]

lemma smobdFitResample_of_no_borderline (cfg : SmobdCfg) (nbrs : List (List ℕ))
    (dists : List (List ℚ)) (smote : ℤ → List Vec → List ℤ → List Vec × List ℤ)
    (X : List Vec) (y : List ℤ) (r : ℕ → SDraw)
    (h : borderlineIndicesOf y (majorityClass y) cfg.k_neighbors nbrs = []) :
    smobdFitResample cfg nbrs dists smote X y r = smote cfg.random_state X y := by
  simp only [smobdFitResample]
  rw [if_pos h]

lemma Xmin_subset {X : List Vec} {y : List ℤ} (hlen : X.length = y.length) (c : ℤ) :
    ∀ w ∈ (whereEq y c).map (fun i => X.getD i []), w ∈ X := by
  intro w hw
  rw [List.mem_map] at hw
  obtain ⟨i, hi, rfl⟩ := hw
  have h := (mem_whereEq hi).1
  exact getD_mem_of_lt (by omega)

lemma count_gt_half_iff (k cnt : ℕ) : ((cnt : ℚ) > (k : ℚ) / 2) ↔ 2 * cnt > k := by
  rw [gt_iff_lt, div_lt_iff₀ (by norm_num : (0 : ℚ) < 2), mul_comm]
  norm_cast

lemma borderlineW_eval :
    borderlineIndicesOf yW (majorityClass yW) 3 nbrsW = [0, 1] := by
  have h0 : majorityClass yW = 0 := by decide
  rw [h0]
  norm_num +decide [borderlineIndicesOf, isBorderline, nbrsW, yW, List.range_succ]

lemma borderlineW2_eval :
    borderlineIndicesOf yW (majorityClass yW) 2 nbrsW2 = [] := by
  have h0 : majorityClass yW = 0 := by decide
  rw [h0]
  norm_num +decide [borderlineIndicesOf, isBorderline, nbrsW2, yW, List.range_succ]

lemma borderlineW4_eval :
    borderlineIndicesOf yW4 (majorityClass yW4) 1 nbrsW4 = [0, 1] := by
  have h0 : majorityClass yW4 = 0 := by decide
  rw [h0]
  norm_num +decide [borderlineIndicesOf, isBorderline, nbrsW4, yW4, List.range_succ]

lemma smobdW_eval :
    smobdFitResample { k_neighbors := 3 } nbrsW distsW smoteIdW XW yW rSW
      = (XW ++ [[21/2]], yW ++ [1]) := by
  norm_num +decide [smobdFitResample, smobdSynthOne, isBorderline, borderlineIndicesOf,
    synthVec, minorityClass, majorityClass, classesOf, classCounts, sortInts, insertSorted,
    argminL, argminAux, argmaxL, argmaxAux, whereEq, List.range_succ, nbrsW, distsW, XW, yW,
    rSW, smoteIdW, List.filterMap_cons, List.filterMap_nil]

lemma gsmote_eval_u0 :
    gsmoteFitResample { k_neighbors := 2 } [[2, 0, 1]] [[0], [0], [1]] [0, 0, 1]
      (fun _ => ⟨0, 0, 0⟩) = ([[0], [0], [1], [2]], [0, 0, 1, 1]) := by
  norm_num +decide [gsmoteFitResample, gsmoteSynthOne, validNeighborsG, truncClamp,
    synthVec, minorityClass, classesOf, classCounts, sortInts, insertSorted, argminL,
    argminAux, whereEq, List.range_succ]

lemma gsmote_eval_uhalf :
    gsmoteFitResample { k_neighbors := 2 } [[2, 0, 1]] [[0], [0], [1]] [0, 0, 1]
      (fun _ => ⟨0, 0, 1/2⟩) = ([[0], [0], [1], [1]], [0, 0, 1, 1]) := by
  norm_num +decide [gsmoteFitResample, gsmoteSynthOne, validNeighborsG, truncClamp,
    synthVec, minorityClass, classesOf, classCounts, sortInts, insertSorted, argminL,
    argminAux, whereEq, List.range_succ]

/-- C2: if the minority-class count is at least the majority-class count on a
two-class input, `GSmote.fit_resample` returns `(X, y)` exactly unchanged
(the `n_samples <= 0` guard fires). -/
theorem gsmote_noop_when_minority_ge_majority (cfg : GSmoteCfg) (nbrs : List (List ℕ))
    (X : List Vec) (y : List ℤ) (r : ℕ → GDraw) (a b : ℤ)
    (hab : classesOf y = [a, b])
    (hge : y.count (majorityClass y) ≤ y.count (minorityClass y)) :
    gsmoteFitResample cfg nbrs X y r = (X, y) := by
  have hle := two_class_count_le hab
  have heq : y.count (minorityClass y) = y.count (majorityClass y) := le_antisymm hle hge
  have hsum := two_class_count_sum hab
  simp only [gsmoteFitResample]
  split_ifs with h1 h2
  · rfl
  · rfl
  · exfalso
    apply h1
    simp only [List.length_map, length_whereEq]
    omega

/-- C6: inside `SMOBDSmote.fit_resample`, minority row `i` is classified as
borderline (member of `borderline_indices`) iff strictly more than
`k_neighbors / 2` of its neighbor list without the position-0 self-match
carry the majority label. -/
theorem smobd_borderline_iff (y : List ℤ) (k : ℕ) (nbrs : List (List ℕ)) (i : ℕ) :
    i ∈ borderlineIndicesOf y (majorityClass y) k nbrs
      ↔ i < nbrs.length ∧
        2 * ((nbrs.getD i []).tail.countP (fun j => y.getD j 0 == majorityClass y)) > k := by
  simp only [borderlineIndicesOf, isBorderline, List.mem_filter, List.mem_range,
    decide_eq_true_eq, List.countP_eq_length_filter]
  rw [count_gt_half_iff]

/-- C7: when no minority sample is borderline, `SMOBDSmote.fit_resample`
returns exactly the external plain-SMOTE collaborator's result on `(X, y)`
(seeded with `self.random_state`); no SMOBD synthesis happens. -/
theorem smobd_no_borderline_delegates (cfg : SmobdCfg) (nbrs : List (List ℕ))
    (dists : List (List ℚ)) (smote : ℤ → List Vec → List ℤ → List Vec × List ℤ)
    (X : List Vec) (y : List ℤ) (r : ℕ → SDraw)
    (h : borderlineIndicesOf y (majorityClass y) cfg.k_neighbors nbrs = []) :
    smobdFitResample cfg nbrs dists smote X y r = smote cfg.random_state X y :=
  smobdFitResample_of_no_borderline cfg nbrs dists smote X y r h

/-- C10: when the majority-minority deficit is non-positive and at least one
borderline sample exists, `SMOBDSmote.fit_resample` runs zero synthesis
iterations and returns the inputs unchanged. -/
theorem smobd_zero_deficit_returns_input (cfg : SmobdCfg) (nbrs : List (List ℕ))
    (dists : List (List ℚ)) (smote : ℤ → List Vec → List ℤ → List Vec × List ℤ)
    (X : List Vec) (y : List ℤ) (r : ℕ → SDraw)
    (hbl : borderlineIndicesOf y (majorityClass y) cfg.k_neighbors nbrs ≠ [])
    (hdef : (y.count (majorityClass y) : ℤ) - (y.count (minorityClass y) : ℤ) ≤ 0) :
    smobdFitResample cfg nbrs dists smote X y r = (X, y) := by
  simp only [smobdFitResample]
  split_ifs with h1 h2
  · exact absurd h1 hbl
  · rfl
  · exfalso
    apply h2
    have hn : ((((whereEq y (majorityClass y)).map (fun i => X.getD i ([] : Vec))).length : ℤ)
        - (((whereEq y (minorityClass y)).map (fun i => X.getD i ([] : Vec))).length : ℤ)).toNat
        = 0 := by
      simp only [List.length_map, length_whereEq]
      omega
    rw [hn]
    rfl

/-- C3: on a two-class input, both oversamplers return `X'` with
`len(X') = len(X) + s` for some `0 ≤ s ≤ n_samples`, where `n_samples` is the
majority count minus the minority count.  The G-SMOTE bound is unconditional;
the SMOBD bound holds under the claim's proviso (scoped to SMOBD alone) that
at least one borderline sample exists, so the external SMOTE fallback is not
taken. -/
theorem fit_resample_size_bound (cfgG : GSmoteCfg) (cfgS : SmobdCfg)
    (nbrs : List (List ℕ)) (dists : List (List ℚ))
    (smote : ℤ → List Vec → List ℤ → List Vec × List ℤ)
    (X : List Vec) (y : List ℤ) (rG : ℕ → GDraw) (rS : ℕ → SDraw) (a b : ℤ)
    (hab : classesOf y = [a, b]) :
    (∃ s : ℕ, (gsmoteFitResample cfgG nbrs X y rG).1.length = X.length + s ∧
        0 ≤ (s : ℤ) ∧
        (s : ℤ) ≤ (y.count (majorityClass y) : ℤ) - (y.count (minorityClass y) : ℤ)) ∧
    (borderlineIndicesOf y (majorityClass y) cfgS.k_neighbors nbrs ≠ [] →
      ∃ s : ℕ, (smobdFitResample cfgS nbrs dists smote X y rS).1.length = X.length + s ∧
        0 ≤ (s : ℤ) ∧
        (s : ℤ) ≤ (y.count (majorityClass y) : ℤ) - (y.count (minorityClass y) : ℤ)) := by
  have hsum := two_class_count_sum hab
  have hle := two_class_count_le hab
  constructor
  · refine ⟨(gsmoteSynths cfgG nbrs X y rG).length, ?_, Int.ofNat_nonneg _, ?_⟩
    · rw [gsmoteFitResample_eq]
      simp
    · simp only [gsmoteSynths]
      split_ifs with hg
      · simp only [List.length_nil, Nat.cast_zero]
        omega
      · have h1 := List.length_filterMap_le
          (fun t => gsmoteSynthOne X y (minorityClass y)
            ((whereEq y (minorityClass y)).map (fun i => X.getD i [])) nbrs
            cfgG.selection_strategy cfgG.truncation_factor (rG t))
          (List.range ((y.length : ℤ)
            - (((whereEq y (minorityClass y)).map (fun i => X.getD i ([] : Vec))).length : ℤ)
            - (((whereEq y (minorityClass y)).map
                (fun i => X.getD i ([] : Vec))).length : ℤ)).toNat)
        rw [List.length_range] at h1
        simp only [List.length_map, length_whereEq] at h1 ⊢
        omega
  · intro hbl
    refine ⟨(smobdSynths cfgS nbrs X y rS).length, ?_, Int.ofNat_nonneg _, ?_⟩
    · rw [smobdFitResample_eq cfgS nbrs dists smote X y rS hbl]
      simp
    · simp only [smobdSynths]
      have h1 := List.length_filterMap_le
        (fun t => smobdSynthOne X y (minorityClass y)
          ((borderlineIndicesOf y (majorityClass y) cfgS.k_neighbors nbrs).map
            (fun i => ((whereEq y (minorityClass y)).map (fun j => X.getD j [])).getD i []))
          (borderlineIndicesOf y (majorityClass y) cfgS.k_neighbors nbrs) nbrs (rS t))
        (List.range ((((whereEq y (majorityClass y)).map
            (fun i => X.getD i ([] : Vec))).length : ℤ)
          - (((whereEq y (minorityClass y)).map
            (fun i => X.getD i ([] : Vec))).length : ℤ)).toNat)
      rw [List.length_range] at h1
      simp only [List.length_map, length_whereEq] at h1 ⊢
      omega

/-- C8: for both oversamplers the output starts with the original `X` and `y`
unchanged and in order, every appended label is the minority label, and the
output feature and label sequences have equal length (the embedding is pure,
so the caller-supplied inputs are never mutated).  For SMOBD the external
plain-SMOTE collaborator is assumed to satisfy the same output contract on
this input, as §6 of the specification requires of it. -/
theorem fit_resample_label_integrity (cfgG : GSmoteCfg) (cfgS : SmobdCfg)
    (nbrs : List (List ℕ)) (dists : List (List ℚ))
    (smote : ℤ → List Vec → List ℤ → List Vec × List ℤ)
    (X : List Vec) (y : List ℤ) (rG : ℕ → GDraw) (rS : ℕ → SDraw)
    (hlen : X.length = y.length)
    (hsm : ∃ exX exY, smote cfgS.random_state X y = (X ++ exX, y ++ exY)
        ∧ exX.length = exY.length ∧ ∀ c ∈ exY, c = minorityClass y) :
    (∃ sX sY, gsmoteFitResample cfgG nbrs X y rG = (X ++ sX, y ++ sY)
        ∧ sX.length = sY.length ∧ (∀ c ∈ sY, c = minorityClass y)
        ∧ (gsmoteFitResample cfgG nbrs X y rG).1.length
            = (gsmoteFitResample cfgG nbrs X y rG).2.length) ∧
    (∃ sX sY, smobdFitResample cfgS nbrs dists smote X y rS = (X ++ sX, y ++ sY)
        ∧ sX.length = sY.length ∧ (∀ c ∈ sY, c = minorityClass y)
        ∧ (smobdFitResample cfgS nbrs dists smote X y rS).1.length
            = (smobdFitResample cfgS nbrs dists smote X y rS).2.length) := by
  constructor
  · refine ⟨gsmoteSynths cfgG nbrs X y rG,
      List.replicate (gsmoteSynths cfgG nbrs X y rG).length (minorityClass y),
      gsmoteFitResample_eq cfgG nbrs X y rG, by simp, ?_, ?_⟩
    · intro c hc
      exact List.eq_of_mem_replicate hc
    · rw [gsmoteFitResample_eq cfgG nbrs X y rG]
      simp [hlen]
  · by_cases hbl : borderlineIndicesOf y (majorityClass y) cfgS.k_neighbors nbrs = []
    · obtain ⟨exX, exY, hout, hxy, hmin⟩ := hsm
      have hfall := smobdFitResample_of_no_borderline cfgS nbrs dists smote X y rS hbl
      refine ⟨exX, exY, by rw [hfall]; exact hout, hxy, hmin, ?_⟩
      rw [hfall, hout]
      simp [hlen, hxy]
    · refine ⟨smobdSynths cfgS nbrs X y rS,
        List.replicate (smobdSynths cfgS nbrs X y rS).length (minorityClass y),
        smobdFitResample_eq cfgS nbrs dists smote X y rS hbl, by simp, ?_, ?_⟩
      · intro c hc
        exact List.eq_of_mem_replicate hc
      · rw [smobdFitResample_eq cfgS nbrs dists smote X y rS hbl]
        simp [hlen]

/-- C4: every synthetic vector appended by `GSmote.fit_resample` equals
`seed + alpha * (neighbor - seed)` for a seed and neighbor taken from the
original `X` and a clamped coefficient with `|alpha| ≤ truncation_factor`
(`nbrs` being a valid answer of the external NearestNeighbors index:
every stored index points into `X`). -/
theorem gsmote_bounded_extrapolation (cfg : GSmoteCfg) (nbrs : List (List ℕ))
    (X : List Vec) (y : List ℤ) (r : ℕ → GDraw)
    (hlen : X.length = y.length)
    (hnn : ∀ l ∈ nbrs, ∀ j ∈ l, j < X.length)
    (htf : 0 ≤ cfg.truncation_factor) :
    ∀ v ∈ (gsmoteFitResample cfg nbrs X y r).1.drop X.length,
      ∃ sample neighbor alphaC, sample ∈ X ∧ neighbor ∈ X ∧
        |alphaC| ≤ cfg.truncation_factor ∧ v = synthVec sample neighbor alphaC := by
  intro v hv
  rw [gsmoteFitResample_eq, List.drop_left] at hv
  simp only [gsmoteSynths] at hv
  split_ifs at hv with hg
  · simp at hv
  · rw [List.mem_filterMap] at hv
    obtain ⟨t, _, ht⟩ := hv
    have hy : y ≠ [] := by
      intro hy0
      apply hg
      subst hy0
      simp [whereEq]
    have hXmin : (whereEq y (minorityClass y)).map (fun i => X.getD i ([] : Vec)) ≠ [] := by
      intro hempty
      have h0 : (whereEq y (minorityClass y)).length = 0 := by
        have := congrArg List.length hempty
        simpa using this
      rw [length_whereEq] at h0
      exact absurd h0 (Nat.pos_iff_ne_zero.mp (count_minorityClass_pos hy))
    obtain ⟨sample, neighbor, hs, hn, hveq⟩ :=
      gsmoteSynthOne_spec hXmin (Xmin_subset hlen _) hnn ht
    exact ⟨sample, neighbor, truncClamp cfg.truncation_factor ((r t).u * 2 - 1),
      hs, hn, truncClamp_abs_le htf, hveq⟩

/-- C5: every synthetic vector appended by `SMOBDSmote.fit_resample` (on the
non-fallback path, with valid NearestNeighbors output and `np.random.random`
draws in `[0, 1]`) is `seed + alpha * (neighbor - seed)` with seed and
neighbor from `X` and `alpha ∈ [0, 1]`, hence lies componentwise between
`min(seed_i, neighbor_i)` and `max(seed_i, neighbor_i)`. -/
theorem smobd_interpolation_segment (cfg : SmobdCfg) (nbrs : List (List ℕ))
    (dists : List (List ℚ)) (smote : ℤ → List Vec → List ℤ → List Vec × List ℤ)
    (X : List Vec) (y : List ℤ) (r : ℕ → SDraw)
    (hlen : X.length = y.length)
    (hnn : ∀ l ∈ nbrs, ∀ j ∈ l, j < X.length)
    (hrows : nbrs.length = (whereEq y (minorityClass y)).length)
    (hbl : borderlineIndicesOf y (majorityClass y) cfg.k_neighbors nbrs ≠ [])
    (halpha : ∀ t, 0 ≤ (r t).alpha ∧ (r t).alpha ≤ 1) :
    ∀ v ∈ (smobdFitResample cfg nbrs dists smote X y r).1.drop X.length,
      ∃ sample neighbor alphaC, sample ∈ X ∧ neighbor ∈ X ∧
        0 ≤ alphaC ∧ alphaC ≤ 1 ∧ v = synthVec sample neighbor alphaC ∧
        ∀ i, i < v.length →
          min (sample.getD i 0) (neighbor.getD i 0) ≤ v.getD i 0 ∧
          v.getD i 0 ≤ max (sample.getD i 0) (neighbor.getD i 0) := by
  intro v hv
  rw [smobdFitResample_eq cfg nbrs dists smote X y r hbl, List.drop_left] at hv
  simp only [smobdSynths] at hv
  rw [List.mem_filterMap] at hv
  obtain ⟨t, _, ht⟩ := hv
  have hXB : (borderlineIndicesOf y (majorityClass y) cfg.k_neighbors nbrs).map
      (fun i => ((whereEq y (minorityClass y)).map
        (fun j => X.getD j ([] : Vec))).getD i ([] : Vec)) ≠ [] := by
    intro hempty
    exact hbl (List.map_eq_nil_iff.mp hempty)
  have hsub : ∀ w ∈ (borderlineIndicesOf y (majorityClass y) cfg.k_neighbors nbrs).map
      (fun i => ((whereEq y (minorityClass y)).map
        (fun j => X.getD j ([] : Vec))).getD i ([] : Vec)), w ∈ X := by
    intro w hw
    rw [List.mem_map] at hw
    obtain ⟨i, hi, rfl⟩ := hw
    have hilt : i < nbrs.length := by
      have := List.mem_filter.mp hi
      exact List.mem_range.mp this.1
    have hilt2 : i < ((whereEq y (minorityClass y)).map
        (fun j => X.getD j ([] : Vec))).length := by
      rw [List.length_map]
      omega
    exact Xmin_subset hlen _ _ (getD_mem_of_lt hilt2)
  obtain ⟨sample, neighbor, hs, hn, hveq⟩ := smobdSynthOne_spec hXB hsub hnn ht
  refine ⟨sample, neighbor, (r t).alpha, hs, hn, (halpha t).1, (halpha t).2, hveq, ?_⟩
  intro i hi
  rw [hveq] at hi ⊢
  exact synthVec_between (halpha t).1 (halpha t).2 i hi

/-- C9: `get_smote_variant` raises a configuration error whose message lists
all seven recognized variant names whenever the case-insensitive lowering of
the requested name is unrecognized, and returns an oversampler (without
raising) for every recognized name. -/
theorem get_smote_variant_spec (variant_name : String) (random_state : ℤ) :
    (pyLower variant_name ∉ recognizedNames →
       ∃ msg, get_smote_variant variant_name random_state = Except.error msg ∧
         ∀ n ∈ recognizedNames, n.data <:+: msg.data) ∧
    (pyLower variant_name ∈ recognizedNames →
       ∃ v, get_smote_variant variant_name random_state = Except.ok v) := by
  constructor
  · intro hnot
    simp only [recognizedNames, List.mem_cons, List.not_mem_nil, or_false, not_or] at hnot
    obtain ⟨h1, h2, h3, h4, h5, h6, h7⟩ := hnot
    have hlookup : (variantsTable random_state).lookup (pyLower variant_name) = none := by
      have b : ∀ sx : String, pyLower variant_name ≠ sx → (pyLower variant_name == sx) = false :=
        fun sx h => beq_eq_false_iff_ne.mpr h
      simp [variantsTable, List.lookup, b _ h1, b _ h2, b _ h3, b _ h4, b _ h5, b _ h6, b _ h7]
    refine ⟨"Unknown SMOTE variant: " ++ variant_name ++ ". Available variants: "
      ++ variantKeysRendered, ?_, ?_⟩
    · simp only [get_smote_variant, hlookup]
    · intro n hn
      have hK : n.data <:+: variantKeysRendered.data := by
        simp only [recognizedNames, List.mem_cons, List.not_mem_nil, or_false] at hn
        rcases hn with rfl | rfl | rfl | rfl | rfl | rfl | rfl <;> decide
      have hsuf : variantKeysRendered.data <:+ ("Unknown SMOTE variant: " ++ variant_name
          ++ ". Available variants: " ++ variantKeysRendered).data := by
        rw [String.data_append]
        exact List.suffix_append _ _
      exact hK.trans hsuf.isInfix
  · intro hmem
    simp only [recognizedNames, List.mem_cons, List.not_mem_nil, or_false] at hmem
    rcases hmem with h | h | h | h | h | h | h <;>
      simp [get_smote_variant, variantsTable, List.lookup, h]

/-- C1 is refuted by the code: `GSmote.fit_resample` reads the ambient global
numpy generator (`np.random.randint` / `np.random.choice` /
`np.random.random`) and never seeds it from `self.random_state`, so two calls
with identical `X`, `y`, configuration and `random_state` (42 in both calls
here) but different ambient generator states return different outputs.  The
two oracle streams below model two states of the global generator (first
draw `u = 0` versus `u = 1/2`). -/
theorem gsmote_depends_on_global_rng :
    gsmoteFitResample { k_neighbors := 2 } [[2, 0, 1]] [[0], [0], [1]] [0, 0, 1]
        (fun _ => ⟨0, 0, 0⟩)
      ≠ gsmoteFitResample { k_neighbors := 2 } [[2, 0, 1]] [[0], [0], [1]] [0, 0, 1]
        (fun _ => ⟨0, 0, 1/2⟩) := by
  rw [gsmote_eval_u0, gsmote_eval_uhalf]
  decide

/-- Witness for C2: a balanced two-point dataset is returned unchanged. -/
theorem gsmote_noop_when_minority_ge_majority_witness :
    gsmoteFitResample {} [] [[0], [1]] [0, 1] (fun _ => ⟨0, 0, 0⟩) = ([[0], [1]], [0, 1]) :=
  gsmote_noop_when_minority_ge_majority {} [] [[0], [1]] [0, 1] (fun _ => ⟨0, 0, 0⟩) 0 1
    (by decide) (by decide)

/-- Witness for C3 on the concrete five-point dataset, discharging the
borderline proviso of the SMOBD conjunct there. -/
theorem fit_resample_size_bound_witness :
    (∃ s : ℕ, (gsmoteFitResample { k_neighbors := 3 } nbrsW XW yW rGW).1.length
        = XW.length + s ∧ 0 ≤ (s : ℤ) ∧
        (s : ℤ) ≤ (yW.count (majorityClass yW) : ℤ) - (yW.count (minorityClass yW) : ℤ)) ∧
    (∃ s : ℕ, (smobdFitResample { k_neighbors := 3 } nbrsW distsW smoteIdW XW yW rSW).1.length
        = XW.length + s ∧ 0 ≤ (s : ℤ) ∧
        (s : ℤ) ≤ (yW.count (majorityClass yW) : ℤ) - (yW.count (minorityClass yW) : ℤ)) :=
  ⟨(fit_resample_size_bound { k_neighbors := 3 } { k_neighbors := 3 } nbrsW distsW smoteIdW
      XW yW rGW rSW 0 1 (by decide)).1,
   (fit_resample_size_bound { k_neighbors := 3 } { k_neighbors := 3 } nbrsW distsW smoteIdW
      XW yW rGW rSW 0 1 (by decide)).2 (by rw [borderlineW_eval]; decide)⟩

/-- Witness for C4: the synthetic row `[2]` produced in the run of
`gsmote_eval_u0` is a bounded extrapolation of two original rows. -/
theorem gsmote_bounded_extrapolation_witness :
    ∃ sample neighbor alphaC, sample ∈ ([[0], [0], [1]] : List Vec)
      ∧ neighbor ∈ ([[0], [0], [1]] : List Vec)
      ∧ |alphaC| ≤ ({ k_neighbors := 2 } : GSmoteCfg).truncation_factor
      ∧ ([2] : Vec) = synthVec sample neighbor alphaC :=
  gsmote_bounded_extrapolation { k_neighbors := 2 } [[2, 0, 1]] [[0], [0], [1]] [0, 0, 1]
    (fun _ => ⟨0, 0, 0⟩) (by decide) (by decide) (by norm_num) [2]
    (by rw [gsmote_eval_u0]; decide)

/-- Witness for C5: the synthetic row `[21/2]` produced in the run of
`smobdW_eval` lies on the segment between its seed and neighbor. -/
theorem smobd_interpolation_segment_witness :
    ∃ sample neighbor alphaC, sample ∈ XW ∧ neighbor ∈ XW
      ∧ 0 ≤ alphaC ∧ alphaC ≤ 1 ∧ ([21/2] : Vec) = synthVec sample neighbor alphaC
      ∧ ∀ i, i < ([21/2] : Vec).length →
          min (sample.getD i 0) (neighbor.getD i 0) ≤ ([21/2] : Vec).getD i 0
          ∧ ([21/2] : Vec).getD i 0 ≤ max (sample.getD i 0) (neighbor.getD i 0) :=
  smobd_interpolation_segment { k_neighbors := 3 } nbrsW distsW smoteIdW XW yW rSW
    (by decide) (by decide) (by decide) (by rw [borderlineW_eval]; decide)
    (by intro t; constructor <;> norm_num [rSW]) [21/2]
    (by rw [smobdW_eval]; simp [XW])

/-- Witness for C7: with no borderline row the result is exactly the external
collaborator's output. -/
theorem smobd_no_borderline_delegates_witness :
    smobdFitResample { k_neighbors := 2 } nbrsW2 distsW smoteStubW XW yW rSW
      = smoteStubW 42 XW yW :=
  smobd_no_borderline_delegates { k_neighbors := 2 } nbrsW2 distsW smoteStubW XW yW rSW
    borderlineW2_eval

/-- Witness for C8 on the concrete five-point dataset (the identity external
collaborator satisfies the shared contract with no appended rows). -/
theorem fit_resample_label_integrity_witness :
    (∃ sX sY, gsmoteFitResample { k_neighbors := 3 } nbrsW XW yW rGW = (XW ++ sX, yW ++ sY)
        ∧ sX.length = sY.length ∧ (∀ c ∈ sY, c = minorityClass yW)
        ∧ (gsmoteFitResample { k_neighbors := 3 } nbrsW XW yW rGW).1.length
            = (gsmoteFitResample { k_neighbors := 3 } nbrsW XW yW rGW).2.length) ∧
    (∃ sX sY, smobdFitResample { k_neighbors := 3 } nbrsW distsW smoteIdW XW yW rSW
          = (XW ++ sX, yW ++ sY)
        ∧ sX.length = sY.length ∧ (∀ c ∈ sY, c = minorityClass yW)
        ∧ (smobdFitResample { k_neighbors := 3 } nbrsW distsW smoteIdW XW yW rSW).1.length
            = (smobdFitResample { k_neighbors := 3 } nbrsW distsW smoteIdW XW yW rSW).2.length) :=
  fit_resample_label_integrity { k_neighbors := 3 } { k_neighbors := 3 } nbrsW distsW smoteIdW
    XW yW rGW rSW (by decide) ⟨[], [], by simp [smoteIdW], rfl, by simp⟩

/-- Witness for C9 at the unrecognized name "foo_smote" and the recognized
(case-insensitively) name "SMOTE". -/
theorem get_smote_variant_spec_witness :
    (∃ msg, get_smote_variant "foo_smote" 42 = Except.error msg ∧
       ∀ n ∈ recognizedNames, n.data <:+: msg.data) ∧
    (∃ v, get_smote_variant "SMOTE" 42 = Except.ok v) :=
  ⟨(get_smote_variant_spec "foo_smote" 42).1 (by decide),
   (get_smote_variant_spec "SMOTE" 42).2 (by decide)⟩

/-- Witness for C10: a balanced four-point dataset with borderline rows is
returned unchanged. -/
theorem smobd_zero_deficit_returns_input_witness :
    smobdFitResample { k_neighbors := 1 } nbrsW4 [[0, 1], [0, 1]] smoteIdW XW4 yW4 rSW
      = (XW4, yW4) :=
  smobd_zero_deficit_returns_input { k_neighbors := 1 } nbrsW4 [[0, 1], [0, 1]] smoteIdW
    XW4 yW4 rSW (by rw [borderlineW4_eval]; decide) (by decide)
